import Mathlib

/-!
Shallow embedding of the `savitzkygolay` Go package (doc.go).  Go `float64`
arithmetic is modelled by exact rational arithmetic (`ℚ`), Go `int` by `ℤ`.
Array reads use `List.getD` (the Go program only reads in bounds on the
executions the theorems quantify over; the safety claim proves the bounds),
array writes use `List.set`, and the Go `for` loops become `List.foldl`
over the ranges the loops traverse.
-/

namespace SavitzkyGolay

/-- Errors of the package, following the spec's taxonomy: `invalidConfig`
for the construction-time checks, `insufficientData` for the `Process`
length check.  (In Go these are `fmt.Errorf` values.) -/
inductive FilterError where
  | invalidConfig
  | insufficientData
deriving DecidableEq, Repr

/-- Go `gramPolynomial(i, m, k, s int) float64` from doc.go: the three-term
Gram-polynomial recurrence.  Recursion is on `k`; the `k-2` call at `k = 1`
reaches `k = -1` in Go and returns 0 there (multiplied by the coefficient
`(k-1)*(2m+k) = 0`); here `(1:ℤ) - 2` behaves the same through `toNat`
fuel because the whole summand is multiplied by `k - 1 = 0`. -/
def gramPolynomial (i m : ℤ) (k : ℤ) (s : ℤ) : ℚ :=
  if _hk : 0 < k then
    ((4 * k - 2 : ℤ) : ℚ) / ((k * (2 * m - k + 1) : ℤ) : ℚ) *
        ((i : ℚ) * gramPolynomial i m (k - 1) s + (s : ℚ) * gramPolynomial i m (k - 1) (s - 1)) -
      (((k - 1) * (2 * m + k) : ℤ) : ℚ) / ((k * (2 * m - k + 1) : ℤ) : ℚ) *
        gramPolynomial i m (k - 2) s
  else
    if k = 0 ∧ s = 0 then 1 else 0
termination_by k.toNat
decreasing_by
  · omega
  · omega
  · omega

/-- Go `productOfRange(a, b int) int`: the falling factorial
`a*(a-1)*...*(a-b+1)` (the loop `for j := a-b+1; j <= a; j++` runs `b`
times when `0 ≤ b ≤ a`, not at all when `b ≤ 0`), and 1 when `a < b`. -/
def productOfRange (a b : ℤ) : ℤ :=
  if b ≤ a then
    ((List.range b.toNat).map (fun (j : ℕ) => a - b + 1 + (j : ℤ))).foldl (· * ·) 1
  else 1

/-- Go `polyWeight(i, t, windowMiddle, polynomial, derivitive int) float64`:
the weight contribution `Σ_{k=0}^{polynomial} (2k+1) ·
(productOfRange(2m,k)/productOfRange(2m+k+1,k+1)) · G(i,m,k,0) · G(t,m,k,d)`. -/
def polyWeight (i t windowMiddle polynomial derivitive : ℤ) : ℚ :=
  ((List.range (polynomial + 1).toNat).map (fun (k : ℕ) =>
      ((2 * (k : ℤ) + 1 : ℤ) : ℚ) *
        ((productOfRange (2 * windowMiddle) (k : ℤ) : ℤ) : ℚ) /
          ((productOfRange (2 * windowMiddle + (k : ℤ) + 1) ((k : ℤ) + 1) : ℤ) : ℚ) *
        gramPolynomial (i : ℤ) windowMiddle (k : ℤ) 0 *
        gramPolynomial (t : ℤ) windowMiddle (k : ℤ) derivitive)).sum

/-- Go `(options *filterConfiguration) computeWeights() [][]float64`:
a `windowSize × windowSize` table; the Go loop indices `row, col` run over
`[-m, m]` with `m = windowSize/2` and fill the entries `[row+m][col+m]`;
for the (validated) odd `windowSize` this fills exactly the indices
`0 .. windowSize-1`, so row `r` / column `c` holds
`polyWeight (c - m) (r - m) m polynomial derivative`. -/
def computeWeights (windowSize polynomial derivative : ℤ) : List (List ℚ) :=
  let m : ℤ := windowSize / 2
  (List.range windowSize.toNat).map (fun (r : ℕ) =>
    (List.range windowSize.toNat).map (fun (c : ℕ) =>
      polyWeight ((c : ℤ) - m) ((r : ℤ) - m) m polynomial derivative))

/-- Go struct `filterConfiguration`. -/
structure filterConfiguration where
  windowSize : ℤ
  derivative : ℤ
  polynomial : ℤ
  weights : List (List ℚ)
deriving DecidableEq, Repr

/-- Go `NewFilter(windowSize, derivitive, polynomial int) (Filter, error)`:
validates the configuration, then eagerly computes the weight table. -/
def NewFilter (windowSize derivitive polynomial : ℤ) :
    Except FilterError filterConfiguration :=
  if windowSize % 2 = 0 ∨ windowSize < 5 then
    .error .invalidConfig
  else if derivitive < 0 then
    .error .invalidConfig
  else if polynomial < 0 then
    .error .invalidConfig
  else
    .ok { windowSize := windowSize, derivative := derivitive, polynomial := polynomial,
          weights := computeWeights windowSize polynomial derivitive }

/-- Go `NewFilterWindow(windowSize int)`: defaults `derivative = 0`,
`polynomial = 3`. -/
def NewFilterWindow (windowSize : ℤ) : Except FilterError filterConfiguration :=
  NewFilter windowSize 0 3

/-- The list of indices `i` in `[center-half, center+half)` that pass the
bounds test `0 ≤ i ∧ i < len(h)-1` inside Go `getHs`; each such `i`
contributes the forward difference `h[i+1]-h[i]`. -/
def hsValidIdx (n : ℕ) (center half : ℤ) : List ℤ :=
  ((List.range (2 * half).toNat).map (fun (j : ℕ) => center - half + (j : ℤ))).filter
    (fun i => decide (0 ≤ i ∧ i < (n : ℤ) - 1))

/-- Go `getHs(h []float64, center, half, derivative int) float64`: average
of the in-bounds forward differences over `[center-half, center+half)`,
raised to the power `derivative` (`math.Pow` with a natural exponent). -/
def getHs (h : List ℚ) (center half derivative : ℤ) : ℚ :=
  let valid := hsValidIdx h.length center half
  let hs := (valid.map (fun i => h.getD (i + 1).toNat 0 - h.getD i.toNat 0)).sum
  (hs / (valid.length : ℚ)) ^ derivative.toNat

/-- The inner convolution loops of Go `Process`:
`Σ_{l=0}^{ws-1} wg[l] * data[off+l]`. -/
def convolve (wg data : List ℚ) (off : ℤ) (ws : ℕ) : ℚ :=
  ((List.range ws).map (fun l => wg.getD l 0 * data.getD (off + (l : ℤ)).toNat 0)).sum

/-- One iteration of the border loop of Go `Process` (`i = 0 .. half-1`):
writes `results[half-i-1] = d1/hs` (row `half-i-1` against the first
window) and `results[n-half+i] = d2/hs` (row `half+i+1` against the last
window). -/
def borderStep (weights : List (List ℚ)) (data x : List ℚ) (w halfW der : ℤ)
    (res : List ℚ) (i : ℕ) : List ℚ :=
  let n : ℤ := (data.length : ℤ)
  let wg1 := weights.getD (halfW - (i : ℤ) - 1).toNat []
  let wg2 := weights.getD (halfW + (i : ℤ) + 1).toNat []
  let d1 := convolve wg1 data 0 w.toNat
  let d2 := convolve wg2 data (n - w) w.toNat
  let res1 := res.set (halfW - (i : ℤ) - 1).toNat
    (d1 / getHs x (halfW - (i : ℤ) - 1) halfW der)
  res1.set (n - halfW + (i : ℤ)).toNat
    (d2 / getHs x (n - halfW + (i : ℤ)) halfW der)

/-- One iteration of the interior loop of Go `Process` (`i = ws .. n`):
writes `results[i-half-1] = d/hs` with the centre row convolved at window
offset `i - ws`. -/
def interiorStep (wg data x : List ℚ) (w halfW der : ℤ)
    (res : List ℚ) (i : ℕ) : List ℚ :=
  let d := convolve wg data ((i : ℤ) - w) w.toNat
  res.set ((i : ℤ) - halfW - 1).toNat
    (d / getHs x ((i : ℤ) - halfW - 1) halfW der)

/-- Go `(options filterConfiguration) Process(data, h []float64)`:
length check, then the border loop over `i = 0 .. half-1`, then the
interior loop over `i = windowSize .. numPoints`. -/
def filterConfiguration.Process (options : filterConfiguration)
    (data h : List ℚ) : Except FilterError (List ℚ) :=
  if (data.length : ℤ) < options.windowSize then
    .error .insufficientData
  else
    let halfW : ℤ := options.windowSize / 2
    let n := data.length
    let r1 := (List.range halfW.toNat).foldl
      (borderStep options.weights data h options.windowSize halfW options.derivative)
      (List.replicate n 0)
    let wg := options.weights.getD halfW.toNat []
    let r2 := ((List.range (n + 1 - options.windowSize.toNat)).map
        (fun j => options.windowSize.toNat + j)).foldl
      (interiorStep wg data h options.windowSize halfW options.derivative) r1
    .ok r2

/-- Value written by the border loop at a left-boundary output index
`idx < half`: weight row `idx` against the first window, divided by the
spacing factor at centre `idx` (in the loop, `idx = half-i-1`). -/
def leftVal (weights : List (List ℚ)) (data x : List ℚ) (half : ℕ) (der : ℤ) (idx : ℕ) : ℚ :=
  convolve (weights.getD idx []) data 0 (2 * half + 1) /
    getHs x (idx : ℤ) (half : ℤ) der

/-- Value written by the border loop at a right-boundary output index
`idx ≥ n - half`: weight row `idx + windowSize - n` against the last
window (in the loop, `idx = n-half+i`, row `half+i+1`). -/
def rightVal (weights : List (List ℚ)) (data x : List ℚ) (half : ℕ) (der : ℤ) (idx : ℕ) : ℚ :=
  convolve (weights.getD (idx + (2 * half + 1) - data.length) []) data
      ((data.length : ℤ) - (2 * (half : ℤ) + 1)) (2 * half + 1) /
    getHs x (idx : ℤ) (half : ℤ) der

/-- Value written by the interior loop at output index `idx` (the loop
variable is `i = idx + half + 1`): centre row against the window starting
at `idx - half`. -/
def midVal (weights : List (List ℚ)) (data x : List ℚ) (half : ℕ) (der : ℤ) (idx : ℕ) : ℚ :=
  convolve (weights.getD half []) data ((idx : ℤ) - (half : ℤ)) (2 * half + 1) /
    getHs x (idx : ℤ) (half : ℤ) der

lemma borderStep_length (weights : List (List ℚ)) (data x : List ℚ) (w halfW der : ℤ)
    (res : List ℚ) (i : ℕ) :
    (borderStep weights data x w halfW der res i).length = res.length := by
  simp [borderStep]

lemma interiorStep_length (wg data x : List ℚ) (w halfW der : ℤ)
    (res : List ℚ) (i : ℕ) :
    (interiorStep wg data x w halfW der res i).length = res.length := by
  simp [interiorStep]

lemma borderFold_length (weights : List (List ℚ)) (data x : List ℚ) (w halfW der : ℤ) (t : ℕ)
    (init : List ℚ) :
    ((List.range t).foldl (borderStep weights data x w halfW der) init).length =
      init.length := by
  induction t with
  | zero => rfl
  | succ t ih =>
      rw [List.range_succ, List.foldl_append, List.foldl_cons, List.foldl_nil,
        borderStep_length, ih]

lemma interiorFold_length (wg data x : List ℚ) (w halfW der : ℤ) (s t : ℕ)
    (init : List ℚ) :
    (((List.range t).map (fun j => s + j)).foldl
        (interiorStep wg data x w halfW der) init).length = init.length := by
  induction t with
  | zero => rfl
  | succ t ih =>
      rw [List.range_succ, List.map_append, List.foldl_append, List.map_cons,
        List.map_nil, List.foldl_cons, List.foldl_nil, interiorStep_length, ih]

lemma getD_set_q (l : List ℚ) (i j : ℕ) (a : ℚ) (hi : i < l.length) :
    (l.set i a).getD j 0 = if i = j then a else l.getD j 0 := by
  rcases eq_or_ne i j with rfl | hne
  · rw [List.getD_eq_getElem?_getD, List.getElem?_set_self hi, if_pos rfl]
    rfl
  · rw [List.getD_eq_getElem?_getD, List.getElem?_set_ne hne, if_neg hne,
      List.getD_eq_getElem?_getD]

lemma getD_replicate_q (n i : ℕ) : (List.replicate n (0 : ℚ)).getD i 0 = 0 := by
  rw [List.getD_eq_getElem?_getD, List.getElem?_replicate]
  split <;> rfl

lemma borderFold_getD (weights : List (List ℚ)) (data x : List ℚ) (half : ℕ)
    (der : ℤ) (hn : 2 * half + 1 ≤ data.length) (t : ℕ) (ht : t ≤ half)
    (idx : ℕ) (hidx : idx < data.length) :
    ((List.range t).foldl
        (borderStep weights data x (2 * (half : ℤ) + 1) (half : ℤ) der)
        (List.replicate data.length (0 : ℚ))).getD idx 0 =
      if half - t ≤ idx ∧ idx < half then leftVal weights data x half der idx
      else if data.length - half ≤ idx ∧ idx < data.length - half + t then
        rightVal weights data x half der idx
      else 0 := by
  induction t with
  | zero =>
      rw [List.range_zero, List.foldl_nil, getD_replicate_q]
      have h1 : ¬ (half - 0 ≤ idx ∧ idx < half) := by omega
      have h2 : ¬ (data.length - half ≤ idx ∧ idx < data.length - half + 0) := by
        omega
      rw [if_neg h1, if_neg h2]
  | succ t ih =>
      have ht' : t ≤ half := by omega
      have hFlen : ((List.range t).foldl
          (borderStep weights data x (2 * (half : ℤ) + 1) (half : ℤ) der)
          (List.replicate data.length (0 : ℚ))).length = data.length := by
        rw [borderFold_length, List.length_replicate]
      rw [List.range_succ, List.foldl_append, List.foldl_cons, List.foldl_nil]
      simp only [borderStep]
      have hLt : ((half : ℤ) - (t : ℤ) - 1).toNat = half - 1 - t := by omega
      have hRt : (((data.length : ℕ) : ℤ) - (half : ℤ) + (t : ℤ)).toNat =
          data.length - half + t := by omega
      rw [hLt, hRt]
      rw [getD_set_q _ _ _ _ (by rw [List.length_set, hFlen]; omega),
        getD_set_q _ _ _ _ (by rw [hFlen]; omega), ih ht']
      by_cases hR : data.length - half + t = idx
      · rw [if_pos hR]
        simp only [rightVal]
        have e1 : ((half : ℤ) + (t : ℤ) + 1).toNat =
            idx + (2 * half + 1) - data.length := by omega
        have e2 : (2 * (half : ℤ) + 1).toNat = 2 * half + 1 := by omega
        have e3 : ((data.length : ℕ) : ℤ) - (half : ℤ) + (t : ℤ) = (idx : ℤ) := by
          omega
        rw [e1, e2, e3]
        have hnot1 : ¬ (half - (t + 1) ≤ idx ∧ idx < half) := by omega
        have hpos2 : data.length - half ≤ idx ∧
            idx < data.length - half + (t + 1) := by omega
        rw [if_neg hnot1, if_pos hpos2]
      · rw [if_neg hR]
        by_cases hL : half - 1 - t = idx
        · have hcond : half - (t + 1) ≤ idx ∧ idx < half := by omega
          rw [if_pos hL, if_pos hcond]
          simp only [leftVal]
          have e2 : (2 * (half : ℤ) + 1).toNat = 2 * half + 1 := by omega
          have e3 : (half : ℤ) - (t : ℤ) - 1 = (idx : ℤ) := by omega
          rw [hL, e2, e3]
        · rw [if_neg hL]
          split_ifs <;> first | rfl | omega

lemma interiorFold_getD (wg data x : List ℚ) (half : ℕ) (der : ℤ) (t : ℕ)
    (ht : t + (2 * half + 1) ≤ data.length + 1)
    (r : List ℚ) (hr : r.length = data.length) (idx : ℕ) :
    (((List.range t).map (fun j => (2 * half + 1) + j)).foldl
        (interiorStep wg data x (2 * (half : ℤ) + 1) (half : ℤ) der) r).getD
          idx 0 =
      if half ≤ idx ∧ idx < half + t then
        convolve wg data ((idx : ℤ) - (half : ℤ)) (2 * half + 1) /
          getHs x (idx : ℤ) (half : ℤ) der
      else r.getD idx 0 := by
  induction t with
  | zero =>
      rw [List.range_zero, List.map_nil, List.foldl_nil]
      have h1 : ¬ (half ≤ idx ∧ idx < half + 0) := by omega
      rw [if_neg h1]
  | succ t ih =>
      have ht' : t + (2 * half + 1) ≤ data.length + 1 := by omega
      have hFlen : (((List.range t).map (fun j => (2 * half + 1) + j)).foldl
          (interiorStep wg data x (2 * (half : ℤ) + 1) (half : ℤ) der)
          r).length = data.length := by
        rw [interiorFold_length, hr]
      rw [List.range_succ, List.map_append, List.map_cons, List.map_nil,
        List.foldl_append, List.foldl_cons, List.foldl_nil]
      simp only [interiorStep]
      have hWt : (((2 * half + 1 + t : ℕ) : ℤ) - (half : ℤ) - 1).toNat =
          half + t := by omega
      rw [hWt, getD_set_q _ _ _ _ (by rw [hFlen]; omega), ih ht']
      by_cases hW : half + t = idx
      · rw [if_pos hW]
        have hpos : half ≤ idx ∧ idx < half + (t + 1) := by omega
        rw [if_pos hpos]
        have e1 : ((2 * half + 1 + t : ℕ) : ℤ) - (2 * (half : ℤ) + 1) =
            (idx : ℤ) - (half : ℤ) := by omega
        have e2 : (2 * (half : ℤ) + 1).toNat = 2 * half + 1 := by omega
        have e3 : ((2 * half + 1 + t : ℕ) : ℤ) - (half : ℤ) - 1 = (idx : ℤ) := by
          omega
        rw [e1, e2, e3]
      · rw [if_neg hW]
        split_ifs <;> first | rfl | omega

/-- The list `Process` returns for a filter whose (odd, validated) window
size is `2*half+1`, with the half-window as a natural number: the border
fold followed by the interior fold. -/
def runFilter (weights : List (List ℚ)) (data x : List ℚ) (half : ℕ)
    (der : ℤ) : List ℚ :=
  ((List.range (data.length + 1 - (2 * half + 1))).map
      (fun j => (2 * half + 1) + j)).foldl
    (interiorStep (weights.getD half []) data x (2 * (half : ℤ) + 1)
      (half : ℤ) der)
    ((List.range half).foldl
      (borderStep weights data x (2 * (half : ℤ) + 1) (half : ℤ) der)
      (List.replicate data.length 0))

lemma Process_eq_runFilter (f : filterConfiguration) (half : ℕ)
    (hw : f.windowSize = 2 * (half : ℤ) + 1) (data x : List ℚ)
    (hn : 2 * half + 1 ≤ data.length) :
    f.Process data x =
      Except.ok (runFilter f.weights data x half f.derivative) := by
  have hcond : ¬ ((data.length : ℤ) < 2 * (half : ℤ) + 1) := by omega
  have h2 : (2 * (half : ℤ) + 1) / 2 = (half : ℤ) := by omega
  have h3 : (2 * (half : ℤ) + 1).toNat = 2 * half + 1 := by omega
  simp only [filterConfiguration.Process, hw, h2, h3, if_neg hcond,
    Int.toNat_natCast, runFilter]

lemma runFilter_length (weights : List (List ℚ)) (data x : List ℚ)
    (half : ℕ) (der : ℤ) :
    (runFilter weights data x half der).length = data.length := by
  rw [runFilter, interiorFold_length, borderFold_length, List.length_replicate]

lemma runFilter_getD (weights : List (List ℚ)) (data x : List ℚ) (half : ℕ)
    (der : ℤ) (hn : 2 * half + 1 ≤ data.length) (idx : ℕ)
    (hidx : idx < data.length) :
    (runFilter weights data x half der).getD idx 0 =
      if idx < half then leftVal weights data x half der idx
      else if idx < data.length - half then midVal weights data x half der idx
      else rightVal weights data x half der idx := by
  rw [runFilter, interiorFold_getD _ _ _ _ _ _ (by omega) _
      (by rw [borderFold_length, List.length_replicate]) idx,
    borderFold_getD weights data x half der hn half le_rfl idx hidx]
  simp only [midVal]
  split_ifs <;> first | rfl | omega

lemma NewFilter_ok_iff (w d p : ℤ) (f : filterConfiguration) :
    NewFilter w d p = Except.ok f ↔
      w % 2 = 1 ∧ 5 ≤ w ∧ 0 ≤ d ∧ 0 ≤ p ∧
        f = ⟨w, d, p, computeWeights w p d⟩ := by
  constructor
  · intro hf
    unfold NewFilter at hf
    by_cases h1 : w % 2 = 0 ∨ w < 5
    · rw [if_pos h1] at hf; exact Except.noConfusion hf
    rw [if_neg h1] at hf
    by_cases h2 : d < 0
    · rw [if_pos h2] at hf; exact Except.noConfusion hf
    rw [if_neg h2] at hf
    by_cases h3 : p < 0
    · rw [if_pos h3] at hf; exact Except.noConfusion hf
    rw [if_neg h3] at hf
    injection hf with h
    exact ⟨by omega, by omega, by omega, by omega, h.symm⟩
  · rintro ⟨h1, h2, h3, h4, rfl⟩
    unfold NewFilter
    rw [if_neg (by omega : ¬ (w % 2 = 0 ∨ w < 5)),
      if_neg (by omega : ¬ d < 0), if_neg (by omega : ¬ p < 0)]

lemma Process_cases (f : filterConfiguration) (data x : List ℚ) :
    if (data.length : ℤ) < f.windowSize then
      f.Process data x = Except.error FilterError.insufficientData
    else ∃ r, f.Process data x = Except.ok r := by
  unfold filterConfiguration.Process
  split_ifs with h
  · rfl
  · exact ⟨_, rfl⟩

lemma Process_ok_not_lt (f : filterConfiguration) (data x r : List ℚ)
    (hr : f.Process data x = Except.ok r) :
    ¬ ((data.length : ℤ) < f.windowSize) := by
  intro h
  unfold filterConfiguration.Process at hr
  rw [if_pos h] at hr
  exact Except.noConfusion hr

lemma getHs_deriv_zero (h : List ℚ) (c half : ℤ) : getHs h c half 0 = 1 := by
  simp [getHs]

lemma borderStep_deriv_zero (weights : List (List ℚ)) (data x1 x2 : List ℚ)
    (w halfW : ℤ) :
    borderStep weights data x1 w halfW 0 =
      borderStep weights data x2 w halfW 0 := by
  funext res i
  simp [borderStep, getHs_deriv_zero]

lemma interiorStep_deriv_zero (wg data x1 x2 : List ℚ) (w halfW : ℤ) :
    interiorStep wg data x1 w halfW 0 = interiorStep wg data x2 w halfW 0 := by
  funext res i
  simp [interiorStep, getHs_deriv_zero]

lemma hsValidIdx_nonempty (n c : ℕ) (half : ℤ) (hhalf : 2 ≤ half)
    (hc : c < n) (hn : 5 ≤ n) :
    1 ≤ (hsValidIdx n (c : ℤ) half).length := by
  have key : ∀ i : ℤ, i ∈ hsValidIdx n (c : ℤ) half →
      1 ≤ (hsValidIdx n (c : ℤ) half).length := fun i hi =>
    List.length_pos_of_mem hi
  by_cases h0 : (c : ℤ) - half < 0
  · apply key 0
    rw [hsValidIdx, List.mem_filter]
    constructor
    · have hj : (half - (c : ℤ)).toNat ∈ List.range (2 * half).toNat :=
        List.mem_range.mpr (by omega)
      have h00 : (0 : ℤ) = (c : ℤ) - half + (((half - (c : ℤ)).toNat : ℕ) : ℤ) := by
        omega
      rw [h00]
      exact List.mem_map_of_mem _ hj
    · simp only [decide_eq_true_eq]
      omega
  · apply key ((c : ℤ) - half)
    rw [hsValidIdx, List.mem_filter]
    constructor
    · have hj : 0 ∈ List.range (2 * half).toNat := List.mem_range.mpr (by omega)
      have hm := List.mem_map_of_mem (fun (j : ℕ) => (c : ℤ) - half + (j : ℤ)) hj
      simpa using hm
    · simp only [decide_eq_true_eq]
      omega

/-- The filter `NewFilter 5 0 3` constructs (used to instantiate the
claim theorems at a concrete configuration). -/
def f5 : filterConfiguration :=
  ⟨5, 0, 3, computeWeights 5 3 0⟩

/-- The filter `NewFilter 7 0 3` constructs. -/
def f7 : filterConfiguration :=
  ⟨7, 0, 3, computeWeights 7 3 0⟩

/-- The data/position sequence `[1,...,7]` of the spec's known small case. -/
def data7 : List ℚ := [1, 2, 3, 4, 5, 6, 7]

/-- C9: for every windowSize, `NewFilterWindow` (ConstructDefault) returns
exactly the same result as `NewFilter` (Construct) called with that
windowSize, derivative 0 and polynomial 3. -/
theorem newFilterWindow_eq_newFilter (windowSize : ℤ) :
    NewFilterWindow windowSize = NewFilter windowSize 0 3 := rfl

/-- C4: construction succeeds iff windowSize is odd and ≥ 5, derivative ≥ 0
and polynomial ≥ 0; every combination violating any of these returns the
`invalidConfig` error and no filter. -/
theorem newFilter_valid_iff (w d p : ℤ) :
    ((∃ f, NewFilter w d p = Except.ok f) ↔
      Odd w ∧ 5 ≤ w ∧ 0 ≤ d ∧ 0 ≤ p) ∧
    (¬ (Odd w ∧ 5 ≤ w ∧ 0 ≤ d ∧ 0 ≤ p) →
      NewFilter w d p = Except.error FilterError.invalidConfig) := by
  constructor
  · constructor
    · rintro ⟨f, hf⟩
      obtain ⟨h1, h2, h3, h4, -⟩ := (NewFilter_ok_iff w d p f).mp hf
      exact ⟨Int.odd_iff.mpr h1, h2, h3, h4⟩
    · rintro ⟨h1, h2, h3, h4⟩
      exact ⟨_, (NewFilter_ok_iff w d p _).mpr
        ⟨Int.odd_iff.mp h1, h2, h3, h4, rfl⟩⟩
  · intro hnot
    rw [Int.odd_iff] at hnot
    unfold NewFilter
    by_cases h1 : w % 2 = 0 ∨ w < 5
    · rw [if_pos h1]
    rw [if_neg h1]
    by_cases h2 : d < 0
    · rw [if_pos h2]
    rw [if_neg h2]
    by_cases h3 : p < 0
    · rw [if_pos h3]
    rw [if_neg h3]
    exact absurd ⟨by omega, by omega, by omega, by omega⟩ hnot

/-- Witness for C4 at windowSize 7 (valid) and windowSize 6 (even, hence
rejected). -/
theorem newFilter_valid_iff_witness :
    (∃ f, NewFilter 7 0 3 = Except.ok f) ∧
      NewFilter 6 0 3 = Except.error FilterError.invalidConfig :=
  ⟨(newFilter_valid_iff 7 0 3).1.mpr
      ⟨Int.odd_iff.mpr (by decide), by decide, by decide, by decide⟩,
   (newFilter_valid_iff 6 0 3).2
      (fun hc => absurd (Int.odd_iff.mp hc.1) (by decide))⟩

/-- C5: for every constructed filter and inputs, `Process` fails with the
`insufficientData` error iff `len(data) < windowSize`; a call with
`len(data)` exactly `windowSize` succeeds; on failure no result sequence is
returned (the error constructor carries none). -/
theorem process_insufficient_iff (w d p : ℤ) (f : filterConfiguration)
    (hf : NewFilter w d p = Except.ok f) (data x : List ℚ) :
    (f.Process data x = Except.error FilterError.insufficientData ↔
      (data.length : ℤ) < w) ∧
    ((data.length : ℤ) = w → ∃ r, f.Process data x = Except.ok r) := by
  obtain ⟨-, -, -, -, rfl⟩ := (NewFilter_ok_iff w d p f).mp hf
  have hc := Process_cases ⟨w, d, p, computeWeights w p d⟩ data x
  dsimp only at hc
  by_cases hlt : (data.length : ℤ) < w
  · rw [if_pos hlt] at hc
    refine ⟨⟨fun _ => hlt, fun _ => hc⟩, fun he => absurd he (by omega)⟩
  · rw [if_neg hlt] at hc
    refine ⟨⟨fun hp => ?_, fun hl => absurd hl hlt⟩, fun _ => hc⟩
    obtain ⟨r, hr⟩ := hc
    rw [hp] at hr
    exact Except.noConfusion hr

/-- Witness for C5: window 5, three samples fail with `insufficientData`;
exactly five samples succeed. -/
theorem process_insufficient_iff_witness :
    (f5.Process [1, 2, 3] [1, 2, 3] =
        Except.error FilterError.insufficientData ↔
      (([1, 2, 3] : List ℚ).length : ℤ) < 5) ∧
    ((([1, 2, 3] : List ℚ).length : ℤ) = 5 →
      ∃ r, f5.Process [1, 2, 3] [1, 2, 3] = Except.ok r) :=
  process_insufficient_iff 5 0 3 f5 rfl [1, 2, 3] [1, 2, 3]

/-- C1: for every valid configuration (windowSize odd and ≥ 5,
polynomial ≥ 0, derivative ≥ 0) with `m = windowSize/2`, the weight table
computed at construction is a windowSize × windowSize table whose entry at
`[row+m][col+m]`, for every `row, col ∈ [-m, m]`, equals
`polyWeight col row m polynomial derivative`, i.e. the claim's sum
`Σ_{k=0}^{polynomial} (2k+1)·(productOfRange(2m,k)/productOfRange(2m+k+1,k+1))
·G(col,m,k,0)·G(row,m,k,derivative)`. -/
theorem weights_table_spec (w d p : ℤ) (f : filterConfiguration)
    (hf : NewFilter w d p = Except.ok f) (row col : ℤ)
    (hrow : -(w / 2) ≤ row ∧ row ≤ w / 2)
    (hcol : -(w / 2) ≤ col ∧ col ≤ w / 2) :
    f.weights.length = w.toNat ∧
    (∀ r ∈ f.weights, r.length = w.toNat) ∧
    (f.weights.getD (row + w / 2).toNat []).getD (col + w / 2).toNat 0 =
      polyWeight col row (w / 2) p d := by
  obtain ⟨h1, h5, -, -, rfl⟩ := (NewFilter_ok_iff w d p f).mp hf
  dsimp only
  refine ⟨by simp [computeWeights], ?_, ?_⟩
  · intro r hr
    simp only [computeWeights, List.mem_map] at hr
    obtain ⟨a, -, rfl⟩ := hr
    simp
  · have hrn : (row + w / 2).toNat < w.toNat := by omega
    have hcn : (col + w / 2).toNat < w.toNat := by omega
    have erow : (((row + w / 2).toNat : ℕ) : ℤ) - w / 2 = row := by omega
    have ecol : (((col + w / 2).toNat : ℕ) : ℤ) - w / 2 = col := by omega
    simp only [computeWeights]
    have houter : (List.map (fun (r : ℕ) => List.map (fun (c : ℕ) =>
        polyWeight ((c : ℤ) - w / 2) ((r : ℤ) - w / 2) (w / 2) p d)
          (List.range w.toNat)) (List.range w.toNat)).getD
          (row + w / 2).toNat [] =
        List.map (fun (c : ℕ) => polyWeight ((c : ℤ) - w / 2)
          ((((row + w / 2).toNat : ℕ) : ℤ) - w / 2) (w / 2) p d)
          (List.range w.toNat) := by
      rw [List.getD_eq_getElem _ _ (by simpa using hrn), List.getElem_map,
        List.getElem_range]
    rw [houter, List.getD_eq_getElem _ _ (by simpa using hcn),
      List.getElem_map, List.getElem_range, erow, ecol]

/-- Witness for C1 at the configuration (5, 0, 3) and `row = col = 0`. -/
theorem weights_table_spec_witness :
    f5.weights.length = (5 : ℤ).toNat ∧
    (∀ r ∈ f5.weights, r.length = (5 : ℤ).toNat) ∧
    (f5.weights.getD ((0 : ℤ) + 5 / 2).toNat []).getD
        ((0 : ℤ) + 5 / 2).toNat 0 =
      polyWeight 0 0 ((5 : ℤ) / 2) 3 0 :=
  weights_table_spec 5 0 3 f5 rfl 0 0 (by decide) (by decide)

/-- C2: on every successful `Process` call on a constructed filter, with
`half = windowSize/2` and `n = len(data)`, for every `i < half` the output
at index `half-i-1` is weight-table row `half-i-1` dotted with the first
`windowSize` samples, divided by `getHs x (half-i-1) half derivative`, and
the output at index `n-half+i` is row `half+i+1` dotted with the last
`windowSize` samples, divided by `getHs x (n-half+i) half derivative`. -/
theorem process_border_spec (w d p : ℤ) (f : filterConfiguration)
    (hf : NewFilter w d p = Except.ok f) (data x : List ℚ)
    (hx : x.length = data.length) (r : List ℚ)
    (hr : f.Process data x = Except.ok r) (i : ℕ) (hi : (i : ℤ) < w / 2) :
    r.getD ((w / 2).toNat - i - 1) 0 =
      convolve (f.weights.getD ((w / 2).toNat - i - 1) []) data 0 w.toNat /
        getHs x (w / 2 - i - 1) (w / 2) d ∧
    r.getD (data.length - (w / 2).toNat + i) 0 =
      convolve (f.weights.getD ((w / 2).toNat + i + 1) []) data
          ((data.length : ℤ) - w) w.toNat /
        getHs x ((data.length : ℤ) - w / 2 + i) (w / 2) d := by
  obtain ⟨h1, h5, -, -, rfl⟩ := (NewFilter_ok_iff w d p f).mp hf
  dsimp only at hr ⊢
  have hnlt := Process_ok_not_lt _ data x r hr
  dsimp only at hnlt
  have hw' : (⟨w, d, p, computeWeights w p d⟩ :
      filterConfiguration).windowSize = 2 * (((w / 2).toNat : ℕ) : ℤ) + 1 := by
    dsimp only
    omega
  rw [Process_eq_runFilter _ ((w / 2).toNat) hw' data x (by omega)] at hr
  dsimp only at hr
  injection hr with hr'
  subst hr'
  constructor
  · rw [runFilter_getD _ data x _ d (by omega) ((w / 2).toNat - i - 1)
      (by omega), if_pos (by omega)]
    simp only [leftVal]
    rw [show (2 * (w / 2).toNat + 1 : ℕ) = w.toNat from by omega,
      show ((((w / 2).toNat - i - 1 : ℕ) : ℕ) : ℤ) = w / 2 - i - 1 from by omega,
      show ((((w / 2).toNat : ℕ) : ℕ) : ℤ) = w / 2 from by omega]
  · rw [runFilter_getD _ data x _ d (by omega)
      (data.length - (w / 2).toNat + i) (by omega), if_neg (by omega),
      if_neg (by omega)]
    simp only [rightVal]
    rw [show (data.length - (w / 2).toNat + i + (2 * (w / 2).toNat + 1) -
          data.length : ℕ) = (w / 2).toNat + i + 1 from by omega,
      show ((data.length : ℕ) : ℤ) - (2 * (((w / 2).toNat : ℕ) : ℤ) + 1) =
          ((data.length : ℕ) : ℤ) - w from by omega,
      show (2 * (w / 2).toNat + 1 : ℕ) = w.toNat from by omega,
      show (((data.length - (w / 2).toNat + i : ℕ) : ℕ) : ℤ) =
          ((data.length : ℕ) : ℤ) - w / 2 + i from by omega,
      show ((((w / 2).toNat : ℕ) : ℕ) : ℤ) = w / 2 from by omega]

/-- C3: on every successful `Process` call on a constructed filter, every
interior output index `j ∈ [half, n-half)` holds the exact-centre row
(row index `half`) dotted with `data[j-half .. j+half]`, divided by
`getHs x j half derivative`. -/
theorem process_interior_spec (w d p : ℤ) (f : filterConfiguration)
    (hf : NewFilter w d p = Except.ok f) (data x : List ℚ)
    (hx : x.length = data.length) (r : List ℚ)
    (hr : f.Process data x = Except.ok r) (j : ℕ)
    (hj1 : (w / 2).toNat ≤ j) (hj2 : j < data.length - (w / 2).toNat) :
    r.getD j 0 =
      convolve (f.weights.getD (w / 2).toNat []) data ((j : ℤ) - w / 2)
          w.toNat /
        getHs x (j : ℤ) (w / 2) d := by
  obtain ⟨h1, h5, -, -, rfl⟩ := (NewFilter_ok_iff w d p f).mp hf
  dsimp only at hr ⊢
  have hnlt := Process_ok_not_lt _ data x r hr
  dsimp only at hnlt
  have hw' : (⟨w, d, p, computeWeights w p d⟩ :
      filterConfiguration).windowSize = 2 * (((w / 2).toNat : ℕ) : ℤ) + 1 := by
    dsimp only
    omega
  rw [Process_eq_runFilter _ ((w / 2).toNat) hw' data x (by omega)] at hr
  dsimp only at hr
  injection hr with hr'
  subst hr'
  rw [runFilter_getD _ data x _ d (by omega) j (by omega), if_neg (by omega),
    if_pos (by omega)]
  simp only [midVal]
  rw [show (2 * (w / 2).toNat + 1 : ℕ) = w.toNat from by omega,
    show ((j : ℕ) : ℤ) - ((((w / 2).toNat : ℕ) : ℕ) : ℤ) =
        ((j : ℕ) : ℤ) - w / 2 from by omega,
    show ((((w / 2).toNat : ℕ) : ℕ) : ℤ) = w / 2 from by omega]

/-- C6: for a filter constructed with derivative 0, `Process data x` does
not depend on the position sequence `x`: any two position sequences of the
data's length give the same output (two-run noninterference; the spacing
factor is raised to the 0th power, so it is always 1). -/
theorem process_deriv_zero_indep (w p : ℤ) (f : filterConfiguration)
    (hf : NewFilter w 0 p = Except.ok f) (data x1 x2 : List ℚ)
    (hx1 : x1.length = data.length) (hx2 : x2.length = data.length) :
    f.Process data x1 = f.Process data x2 := by
  obtain ⟨-, -, -, -, rfl⟩ := (NewFilter_ok_iff w 0 p f).mp hf
  unfold filterConfiguration.Process
  dsimp only
  split_ifs with h
  · rfl
  · rw [borderStep_deriv_zero (computeWeights w p 0) data x1 x2 w (w / 2),
      interiorStep_deriv_zero ((computeWeights w p 0).getD (w / 2).toNat [])
        data x1 x2 w (w / 2)]

/-- Witness for C6: window 5 smoothing of five samples with uniform versus
quadratic positions. -/
theorem process_deriv_zero_indep_witness :
    f5.Process [1, 2, 3, 4, 5] [0, 1, 2, 3, 4] =
      f5.Process [1, 2, 3, 4, 5] [0, 1, 4, 9, 16] :=
  process_deriv_zero_indep 5 3 f5 rfl [1, 2, 3, 4, 5] [0, 1, 2, 3, 4]
    [0, 1, 4, 9, 16] rfl rfl

/-- C7: every successful `Process` call returns exactly `len(data)`
entries, and the left-boundary indices `[0, half)`, the interior indices
`[half, n-half)` and the right-boundary indices `[n-half, n)` cover every
output index exactly once. -/
theorem process_length_cover (w d p : ℤ) (f : filterConfiguration)
    (hf : NewFilter w d p = Except.ok f) (data x r : List ℚ)
    (hr : f.Process data x = Except.ok r) :
    r.length = data.length ∧
    ∀ j, j < data.length →
      (j < (w / 2).toNat ∧
        ¬ ((w / 2).toNat ≤ j ∧ j < data.length - (w / 2).toNat) ∧
        ¬ (data.length - (w / 2).toNat ≤ j)) ∨
      (¬ j < (w / 2).toNat ∧
        ((w / 2).toNat ≤ j ∧ j < data.length - (w / 2).toNat) ∧
        ¬ (data.length - (w / 2).toNat ≤ j)) ∨
      (¬ j < (w / 2).toNat ∧
        ¬ ((w / 2).toNat ≤ j ∧ j < data.length - (w / 2).toNat) ∧
        data.length - (w / 2).toNat ≤ j) := by
  obtain ⟨h1, h5, -, -, rfl⟩ := (NewFilter_ok_iff w d p f).mp hf
  have hnlt := Process_ok_not_lt _ data x r hr
  dsimp only at hnlt
  have hw' : (⟨w, d, p, computeWeights w p d⟩ :
      filterConfiguration).windowSize = 2 * (((w / 2).toNat : ℕ) : ℤ) + 1 := by
    dsimp only
    omega
  rw [Process_eq_runFilter _ ((w / 2).toNat) hw' data x (by omega)] at hr
  injection hr with hr'
  subst hr'
  refine ⟨runFilter_length _ data x _ _, ?_⟩
  intro j hj
  omega

/-- C8: `Construct(7,0,3)` followed by
`Process([1,2,3,4,5,6,7], [1,2,3,4,5,6,7])` succeeds — the seven samples
exactly fill the window (`half = 3`, a single degenerate window) — and
returns exactly 7 values. -/
theorem small_case_seven :
    NewFilter 7 0 3 = Except.ok f7 ∧
    ∃ r, f7.Process data7 data7 = Except.ok r ∧ r.length = 7 := by
  refine ⟨rfl, runFilter f7.weights data7 data7 3 0, ?_, ?_⟩
  · exact Process_eq_runFilter f7 3 (by decide) data7 data7 (by decide)
  · rw [runFilter_length]
    decide

/-- C10: on every in-range call of a constructed filter, `Process`
succeeds and every array access is in bounds: the weight-table rows
`half-i-1`, `half+i+1` and `half` exist, all `data` window reads and all
`results` writes are within `[0, n)`, and at every evaluated centre the
spacing average in `getHs` has at least one contributing forward
difference, so its divisor count is never zero. -/
theorem process_safety (w d p : ℤ) (f : filterConfiguration)
    (hf : NewFilter w d p = Except.ok f) (data x : List ℚ)
    (hx : x.length = data.length) (hlen : w ≤ (data.length : ℤ)) :
    (∃ r, f.Process data x = Except.ok r) ∧
    ((w / 2).toNat < f.weights.length ∧
      ∀ i : ℕ, i < (w / 2).toNat →
        (w / 2).toNat - i - 1 < f.weights.length ∧
        (w / 2).toNat + i + 1 < f.weights.length) ∧
    (∀ l : ℕ, l < w.toNat →
      l < data.length ∧ data.length - w.toNat + l < data.length) ∧
    (∀ i : ℕ, w.toNat ≤ i → i ≤ data.length → ∀ l : ℕ, l < w.toNat →
      l + i - w.toNat < data.length) ∧
    (∀ i : ℕ, i < (w / 2).toNat →
      (w / 2).toNat - i - 1 < data.length ∧
      data.length - (w / 2).toNat + i < data.length) ∧
    (∀ i : ℕ, w.toNat ≤ i → i ≤ data.length →
      i - (w / 2).toNat - 1 < data.length) ∧
    (∀ c : ℕ, c < data.length →
      1 ≤ (hsValidIdx x.length (c : ℤ) (w / 2)).length) := by
  obtain ⟨h1, h5, -, -, rfl⟩ := (NewFilter_ok_iff w d p f).mp hf
  dsimp only
  have hwl : (computeWeights w p d).length = w.toNat := by
    simp [computeWeights]
  refine ⟨?_, ⟨?_, ?_⟩, ?_, ?_, ?_, ?_, ?_⟩
  · have hc := Process_cases ⟨w, d, p, computeWeights w p d⟩ data x
    dsimp only at hc
    rw [if_neg (by omega)] at hc
    exact hc
  · omega
  · intro i hi
    exact ⟨by omega, by omega⟩
  · intro l hl
    exact ⟨by omega, by omega⟩
  · intro i hi1 hi2 l hl
    omega
  · intro i hi
    exact ⟨by omega, by omega⟩
  · intro i hi1 hi2
    omega
  · intro c hc
    rw [hx]
    exact hsValidIdx_nonempty data.length c (w / 2) (by omega) hc (by omega)

/-- The sequence `[1,...,5]`, used to instantiate claim theorems at the
window-5 smoothing filter. -/
def data5 : List ℚ := [1, 2, 3, 4, 5]

/-- Witness for C2: window-5 filter on five samples, border offset 0. -/
theorem process_border_spec_witness :
    (runFilter f5.weights data5 data5 2 0).getD
        (((5 : ℤ) / 2).toNat - 0 - 1) 0 =
      convolve (f5.weights.getD (((5 : ℤ) / 2).toNat - 0 - 1) []) data5 0
          (5 : ℤ).toNat /
        getHs data5 ((5 : ℤ) / 2 - ((0 : ℕ) : ℤ) - 1) ((5 : ℤ) / 2) 0 ∧
    (runFilter f5.weights data5 data5 2 0).getD
        (data5.length - ((5 : ℤ) / 2).toNat + 0) 0 =
      convolve (f5.weights.getD (((5 : ℤ) / 2).toNat + 0 + 1) []) data5
          ((data5.length : ℤ) - 5) (5 : ℤ).toNat /
        getHs data5 ((data5.length : ℤ) - (5 : ℤ) / 2 + ((0 : ℕ) : ℤ))
          ((5 : ℤ) / 2) 0 :=
  process_border_spec 5 0 3 f5 rfl data5 data5 rfl
    (runFilter f5.weights data5 data5 2 0)
    (Process_eq_runFilter f5 2 (by decide) data5 data5 (by decide)) 0
    (by decide)

/-- Witness for C3: window-5 filter on five samples, the single interior
index 2. -/
theorem process_interior_spec_witness :
    (runFilter f5.weights data5 data5 2 0).getD 2 0 =
      convolve (f5.weights.getD ((5 : ℤ) / 2).toNat []) data5
          (((2 : ℕ) : ℤ) - (5 : ℤ) / 2) (5 : ℤ).toNat /
        getHs data5 ((2 : ℕ) : ℤ) ((5 : ℤ) / 2) 0 :=
  process_interior_spec 5 0 3 f5 rfl data5 data5 rfl
    (runFilter f5.weights data5 data5 2 0)
    (Process_eq_runFilter f5 2 (by decide) data5 data5 (by decide)) 2
    (by decide) (by decide)

/-- Witness for C7: window-5 filter on five samples. -/
theorem process_length_cover_witness :
    (runFilter f5.weights data5 data5 2 0).length = data5.length ∧
    ∀ j, j < data5.length →
      (j < ((5 : ℤ) / 2).toNat ∧
        ¬ (((5 : ℤ) / 2).toNat ≤ j ∧
          j < data5.length - ((5 : ℤ) / 2).toNat) ∧
        ¬ (data5.length - ((5 : ℤ) / 2).toNat ≤ j)) ∨
      (¬ j < ((5 : ℤ) / 2).toNat ∧
        (((5 : ℤ) / 2).toNat ≤ j ∧
          j < data5.length - ((5 : ℤ) / 2).toNat) ∧
        ¬ (data5.length - ((5 : ℤ) / 2).toNat ≤ j)) ∨
      (¬ j < ((5 : ℤ) / 2).toNat ∧
        ¬ (((5 : ℤ) / 2).toNat ≤ j ∧
          j < data5.length - ((5 : ℤ) / 2).toNat) ∧
        data5.length - ((5 : ℤ) / 2).toNat ≤ j) :=
  process_length_cover 5 0 3 f5 rfl data5 data5
    (runFilter f5.weights data5 data5 2 0)
    (Process_eq_runFilter f5 2 (by decide) data5 data5 (by decide))

/-- Witness for C10: window-5 filter on five samples with their positions. -/
theorem process_safety_witness :
    (∃ r, f5.Process data5 data5 = Except.ok r) ∧
    (((5 : ℤ) / 2).toNat < f5.weights.length ∧
      ∀ i : ℕ, i < ((5 : ℤ) / 2).toNat →
        ((5 : ℤ) / 2).toNat - i - 1 < f5.weights.length ∧
        ((5 : ℤ) / 2).toNat + i + 1 < f5.weights.length) ∧
    (∀ l : ℕ, l < (5 : ℤ).toNat →
      l < data5.length ∧ data5.length - (5 : ℤ).toNat + l < data5.length) ∧
    (∀ i : ℕ, (5 : ℤ).toNat ≤ i → i ≤ data5.length → ∀ l : ℕ,
      l < (5 : ℤ).toNat → l + i - (5 : ℤ).toNat < data5.length) ∧
    (∀ i : ℕ, i < ((5 : ℤ) / 2).toNat →
      ((5 : ℤ) / 2).toNat - i - 1 < data5.length ∧
      data5.length - ((5 : ℤ) / 2).toNat + i < data5.length) ∧
    (∀ i : ℕ, (5 : ℤ).toNat ≤ i → i ≤ data5.length →
      i - ((5 : ℤ) / 2).toNat - 1 < data5.length) ∧
    (∀ c : ℕ, c < data5.length →
      1 ≤ (hsValidIdx data5.length (c : ℤ) ((5 : ℤ) / 2)).length) :=
  process_safety 5 0 3 f5 rfl data5 data5 rfl (by decide)

end SavitzkyGolay
